import Mathlib

/-!
Verification of the keeper-valuation core of `src/keeper_recommendations/app.py`.

Embedding conventions:
* Python `int` is modelled as `ℤ`; Python `float` values produced by the weighting
  code are modelled as `ℚ` (every literal in the weight table is an exact decimal,
  and the algorithm only adds, multiplies and divides them).
* Python floor division `//` and `%` are applied by the code only to non-negative
  operands (both arguments are first clamped with `max(1, ·)`), where they agree
  with Lean's Euclidean `/` and `%` on `ℤ`.
* Python `for r in range(lo, hi)` accumulation is modelled as a `Finset.Ico lo hi` sum.
-/

namespace KeeperApp

/-- Function `round_from_overall` from app.py: map overall pick number to draft round (1-indexed).
`((max(1, int(overall)) - 1) // max(1, teams)) + 1`. -/
def round_from_overall (overall teams : ℤ) : ℤ :=
  (max 1 overall - 1) / max 1 teams + 1

/-- Function `pick_in_round` from app.py: map overall pick to 1..teams within the round.
`((max(1, int(overall)) - 1) % max(1, teams)) + 1`. -/
def pick_in_round (overall teams : ℤ) : ℤ :=
  (max 1 overall - 1) % max 1 teams + 1

/-- The `ROUND_WEIGHTS` dict from app.py, as an association list round ↦ weight. -/
def ROUND_WEIGHTS : List (ℤ × ℚ) :=
  [(1, 5.0), (2, 4.0), (3, 3.5), (4, 3.0), (5, 2.5), (6, 2.0), (7, 1.8), (8, 1.6),
   (9, 1.4), (10, 1.2), (11, 1.1), (12, 1.05), (13, 1.0), (14, 0.95), (15, 0.9),
   (16, 0.85), (17, 0.8), (18, 0.75), (19, 0.7), (20, 0.65)]

/-- Python's binary `max` on rationals (kernel-reducible, agrees with `max`). -/
def qmax (a b : ℚ) : ℚ := if a ≤ b then b else a

theorem qmax_eq_max (a b : ℚ) : qmax a b = max a b := (max_def a b).symm

/-- Dictionary lookup (`r in ROUND_WEIGHTS` / `ROUND_WEIGHTS[r]`). -/
def dictLookup (r : ℤ) : List (ℤ × ℚ) → Option ℚ
  | [] => none
  | (k, w) :: es => if r = k then some w else dictLookup r es

/-- Function `weight_for_round` from app.py: table lookup, and beyond the configured rounds
the taper `max(0.55, 0.60 - 0.01 * max(0, r - 20))`. -/
def weight_for_round (r : ℤ) : ℚ :=
  match dictLookup r ROUND_WEIGHTS with
  | some w => w
  | none => qmax 0.55 (0.60 - 0.01 * ((max 0 (r - 20) : ℤ) : ℚ))

/-- The `total` computed inside `weighted_span_sum` for direction-normalised
endpoints `start < end` (the body after the direction of travel is fixed).
The Python `for r in range(start_round + 1, end_round)` accumulation is the
`Finset.Ico` sum. -/
def span_total (start «end» teams : ℤ) : ℚ :=
  let start_round := round_from_overall start teams
  let start_pick := pick_in_round start teams
  let end_round := round_from_overall «end» teams
  let end_pick := pick_in_round «end» teams
  if start_round = end_round then
    ((max 0 (end_pick - start_pick) : ℤ) : ℚ) * weight_for_round start_round
  else
    (if max 0 (teams - start_pick) ≠ 0 then
      ((max 0 (teams - start_pick) : ℤ) : ℚ) * weight_for_round start_round
    else 0)
    + (∑ r in Finset.Ico (start_round + 1) end_round, (teams : ℚ) * weight_for_round r)
    + (if end_pick > 0 then (end_pick : ℚ) * weight_for_round end_round else 0)

/-- Function `weighted_span_sum` from app.py: signed sum of per-pick weights from ADP to
keeper cost, chunked by rounds.  The source picks
`start, end, sign = (adp, keep, +1)` when `keep > adp` and `(keep, adp, -1)`
otherwise, then returns `sign * total`; `span_total` is that `total` as a
function of `(start, end, teams)`. -/
def weighted_span_sum (adp_overall keep_overall teams : ℤ) : ℚ :=
  if keep_overall = adp_overall then 0
  else if keep_overall > adp_overall then
    1 * span_total adp_overall keep_overall teams
  else
    -1 * span_total keep_overall adp_overall teams

example : round_from_overall 15 12 = 2 := by decide
example : round_from_overall 23 12 = 2 := by decide
example : pick_in_round 23 12 = 11 := by decide
example : weighted_span_sum 15 23 12 = 32 := by
  norm_num [weighted_span_sum, span_total, round_from_overall, pick_in_round, weight_for_round, ROUND_WEIGHTS, dictLookup]
example : weighted_span_sum 23 15 12 = -32 := by
  norm_num [weighted_span_sum, span_total, round_from_overall, pick_in_round, weight_for_round, ROUND_WEIGHTS, dictLookup]
example : weight_for_round 21 = 0.59 := by
  norm_num [weight_for_round, ROUND_WEIGHTS, dictLookup, qmax]
example : weight_for_round 26 = 0.55 := by
  norm_num [weight_for_round, ROUND_WEIGHTS, dictLookup, qmax]

/-! ### Per-pick (naive) span sum, following the spec's description -/

/-- Sum of per-pick round weights over the half-open pick range `(lo, hi]`. -/
def pickSum (lo hi teams : ℤ) : ℚ :=
  ∑ p in Finset.Ico (lo + 1) (hi + 1), weight_for_round (round_from_overall p teams)

/-- The naive per-pick definition of the span sum, as the spec words it:
`sign * Σ weight_for_round (round_from_overall p teams)` over every pick `p`
in `(min a b, max a b]`, where `sign` is `+1` if `b > a` and `-1` if `b < a`. -/
def naive_span_sum (a b teams : ℤ) : ℚ :=
  (if b > a then 1 else if b < a then -1 else 0) * pickSum (min a b) (max a b) teams

/-! ### Pick-geometry lemmas -/

theorem round_from_overall_eq {overall teams : ℤ} (ho : 1 ≤ overall) (ht : 1 ≤ teams) :
    round_from_overall overall teams = (overall - 1) / teams + 1 := by
  unfold round_from_overall
  rw [max_eq_right ho, max_eq_right ht]

theorem pick_in_round_eq {overall teams : ℤ} (ho : 1 ≤ overall) (ht : 1 ≤ teams) :
    pick_in_round overall teams = (overall - 1) % teams + 1 := by
  unfold pick_in_round
  rw [max_eq_right ho, max_eq_right ht]

theorem round_from_overall_pos (overall teams : ℤ) : 1 ≤ round_from_overall overall teams := by
  unfold round_from_overall
  have h1 : (0 : ℤ) ≤ max 1 overall - 1 := by
    have := le_max_left (1 : ℤ) overall; omega
  have h2 : (0 : ℤ) < max 1 teams := by
    have := le_max_left (1 : ℤ) teams; omega
  have := Int.ediv_nonneg h1 h2.le
  omega

theorem pick_in_round_pos (overall teams : ℤ) : 1 ≤ pick_in_round overall teams := by
  unfold pick_in_round
  have h2 : max 1 teams ≠ 0 := by
    have := le_max_left (1 : ℤ) teams; omega
  have := Int.emod_nonneg (max 1 overall - 1) h2
  omega

theorem pick_in_round_le {overall teams : ℤ} (ht : 1 ≤ teams) :
    pick_in_round overall teams ≤ teams := by
  unfold pick_in_round
  rw [max_eq_right ht]
  have := Int.emod_lt_of_pos (max 1 overall - 1) (show (0:ℤ) < teams by omega)
  omega

/-- The round-trip identity: `(round - 1) * teams + pick_in_round = overall`. -/
theorem overall_roundtrip {overall teams : ℤ} (ho : 1 ≤ overall) (ht : 1 ≤ teams) :
    (round_from_overall overall teams - 1) * teams + pick_in_round overall teams = overall := by
  rw [round_from_overall_eq ho ht, pick_in_round_eq ho ht]
  have h := Int.ediv_add_emod (overall - 1) teams
  have h2 : ((overall - 1) / teams + 1 - 1) * teams = teams * ((overall - 1) / teams) := by
    ring
  omega

/-- The pick range covered by round `r`: `(r-1)*teams < overall ≤ r*teams`. -/
theorem round_bounds {overall teams : ℤ} (ho : 1 ≤ overall) (ht : 1 ≤ teams) :
    (round_from_overall overall teams - 1) * teams < overall ∧
      overall ≤ round_from_overall overall teams * teams := by
  have hrt := overall_roundtrip ho ht
  have hp1 := pick_in_round_pos overall teams
  have hp2 := @pick_in_round_le overall teams ht
  constructor
  · omega
  · nlinarith [hrt, hp1, hp2]

/-- Any pick inside round `r`'s range is assigned round `r`. -/
theorem round_eq_of_bounds {p r teams : ℤ} (ht : 1 ≤ teams) (hr : 1 ≤ r)
    (h1 : (r - 1) * teams < p) (h2 : p ≤ r * teams) :
    round_from_overall p teams = r := by
  have hp : 1 ≤ p := by nlinarith
  rw [round_from_overall_eq hp ht]
  have hj0 : 0 ≤ p - 1 - (r - 1) * teams := by omega
  have hjt : p - 1 - (r - 1) * teams < teams := by nlinarith
  have key : (p - 1) / teams = r - 1 := by
    have : p - 1 = (p - 1 - (r - 1) * teams) + (r - 1) * teams := by ring
    rw [this, Int.add_mul_ediv_right _ _ (show teams ≠ 0 by omega),
      Int.ediv_eq_zero_of_lt hj0 hjt]
    ring
  omega

theorem round_from_overall_mono {p q teams : ℤ} (h : p ≤ q) :
    round_from_overall p teams ≤ round_from_overall q teams := by
  unfold round_from_overall
  have h2 : (0 : ℤ) < max 1 teams := by
    have := le_max_left (1 : ℤ) teams; omega
  have : max 1 p - 1 ≤ max 1 q - 1 := by
    simp only [max_def]
    split <;> split <;> omega
  have := Int.ediv_le_ediv h2 this
  omega

/-! ### pickSum decomposition lemmas -/

theorem pickSum_split {lo mid hi : ℤ} (teams : ℤ) (h1 : lo ≤ mid) (h2 : mid ≤ hi) :
    pickSum lo hi teams = pickSum lo mid teams + pickSum mid hi teams := by
  unfold pickSum
  rw [← Finset.Ico_union_Ico_eq_Ico (show lo + 1 ≤ mid + 1 by omega)
    (show mid + 1 ≤ hi + 1 by omega),
    Finset.sum_union (Finset.Ico_disjoint_Ico_consecutive _ _ _)]

theorem pickSum_self (lo teams : ℤ) : pickSum lo lo teams = 0 := by
  unfold pickSum
  rw [Finset.Ico_self, Finset.sum_empty]

/-- A range of picks lying entirely inside one round sums to
(length of the range) times that round's weight. -/
theorem pickSum_const {lo hi r teams : ℤ} (hle : lo ≤ hi)
    (hall : ∀ p, lo < p → p ≤ hi → round_from_overall p teams = r) :
    pickSum lo hi teams = ((hi - lo : ℤ) : ℚ) * weight_for_round r := by
  unfold pickSum
  rw [Finset.sum_congr rfl (fun p hp => by
    rw [hall p (by have := (Finset.mem_Ico.mp hp).1; omega)
      (by have := (Finset.mem_Ico.mp hp).2; omega)])]
  rw [Finset.sum_const, Int.card_Ico, nsmul_eq_mul]
  congr 1
  have : hi + 1 - (lo + 1) = hi - lo := by ring
  rw [this]
  rw [← Int.cast_natCast, Int.toNat_of_nonneg (by omega)]

/-- Full rounds `r1+1 .. r2` (pick range `(r1*teams, r2*teams]`) each contribute
`teams * weight`. -/
theorem pickSum_full_rounds {r1 teams : ℤ} (ht : 1 ≤ teams) (hr1 : 1 ≤ r1) :
    ∀ r2, r1 ≤ r2 →
      pickSum (r1 * teams) (r2 * teams) teams =
        ∑ r in Finset.Ico (r1 + 1) (r2 + 1), (teams : ℚ) * weight_for_round r := by
  refine Int.le_induction ?_ ?_
  · rw [pickSum_self, Finset.Ico_self, Finset.sum_empty]
  · intro r2 hr2 ih
    have hsplit : pickSum (r1 * teams) ((r2 + 1) * teams) teams =
        pickSum (r1 * teams) (r2 * teams) teams +
          pickSum (r2 * teams) ((r2 + 1) * teams) teams :=
      pickSum_split teams (by nlinarith) (by nlinarith)
    have hchunk : pickSum (r2 * teams) ((r2 + 1) * teams) teams =
        (((r2 + 1) * teams - r2 * teams : ℤ) : ℚ) * weight_for_round (r2 + 1) := by
      refine pickSum_const (by nlinarith) (fun p h1 h2 => ?_)
      refine round_eq_of_bounds ht (by omega) ?_ h2
      have hx : (r2 + 1 - 1) * teams = r2 * teams := by ring
      omega
    have hico : Finset.Ico (r1 + 1) (r2 + 1 + 1) = insert (r2 + 1) (Finset.Ico (r1 + 1) (r2 + 1)) := by
      ext x
      simp only [Finset.mem_Ico, Finset.mem_insert]
      omega
    rw [hsplit, ih, hchunk, hico, Finset.sum_insert (by simp [Finset.mem_Ico])]
    have : ((r2 + 1) * teams - r2 * teams : ℤ) = teams := by ring
    rw [this]
    ring

/-- The chunked-by-rounds total equals the per-pick sum over `(start, end]`. -/
theorem span_total_eq_pickSum {start «end» teams : ℤ} (ht : 1 ≤ teams)
    (hs : 1 ≤ start) (hlt : start < «end») :
    span_total start «end» teams = pickSum start «end» teams := by
  have he : 1 ≤ «end» := by omega
  have hsr1 : 1 ≤ round_from_overall start teams := round_from_overall_pos _ _
  have her1 : 1 ≤ round_from_overall «end» teams := round_from_overall_pos _ _
  have hsb := round_bounds hs ht
  have heb := round_bounds he ht
  have hsrt := overall_roundtrip hs ht
  have hert := overall_roundtrip he ht
  unfold span_total
  by_cases h : round_from_overall start teams = round_from_overall «end» teams
  · rw [if_pos h]
    have hsum : pickSum start «end» teams =
        ((«end» - start : ℤ) : ℚ) * weight_for_round (round_from_overall start teams) := by
      refine pickSum_const (by omega) (fun p h1 h2 => ?_)
      refine round_eq_of_bounds ht hsr1 (by omega) ?_
      calc p ≤ «end» := h2
        _ ≤ round_from_overall «end» teams * teams := heb.2
        _ = round_from_overall start teams * teams := by rw [h]
    rw [hsum]
    have : max 0 (pick_in_round «end» teams - pick_in_round start teams) =
        «end» - start := by
      rw [h] at hsrt
      omega
    rw [this]
  · rw [if_neg h]
    have hrlt : round_from_overall start teams < round_from_overall «end» teams :=
      lt_of_le_of_ne (round_from_overall_mono hlt.le) h
    set sr := round_from_overall start teams with hsr
    set er := round_from_overall «end» teams with her
    have hexp : (sr - 1) * teams = sr * teams - teams := by ring
    have hexp' : (er - 1) * teams = er * teams - teams := by ring
    have hmid1 : start ≤ sr * teams := hsb.2
    have hmid2 : sr * teams ≤ (er - 1) * teams := by nlinarith
    have hmid3 : (er - 1) * teams ≤ «end» := by omega
    have hchunk1 : pickSum start (sr * teams) teams =
        ((sr * teams - start : ℤ) : ℚ) * weight_for_round sr := by
      refine pickSum_const hmid1 (fun p h1 h2 => ?_)
      exact round_eq_of_bounds ht hsr1 (by omega) h2
    have hchunk2 : pickSum (sr * teams) ((er - 1) * teams) teams =
        ∑ r in Finset.Ico (sr + 1) (er - 1 + 1), (teams : ℚ) * weight_for_round r :=
      pickSum_full_rounds ht hsr1 (er - 1) (by omega)
    have hchunk3 : pickSum ((er - 1) * teams) «end» teams =
        ((«end» - (er - 1) * teams : ℤ) : ℚ) * weight_for_round er := by
      refine pickSum_const hmid3 (fun p h1 h2 => ?_)
      exact round_eq_of_bounds ht her1 (by omega) (by omega)
    rw [pickSum_split teams hmid1 (le_trans hmid2 hmid3),
      pickSum_split teams hmid2 hmid3, hchunk1, hchunk2, hchunk3]
    have hico : er - 1 + 1 = er := by ring
    rw [hico]
    have hsp : teams - pick_in_round start teams = sr * teams - start := by omega
    have hep : pick_in_round «end» teams = «end» - (er - 1) * teams := by omega
    rw [if_pos (show pick_in_round «end» teams > 0 from pick_in_round_pos _ _), hep]
    by_cases hz : max 0 (teams - pick_in_round start teams) ≠ 0
    · rw [if_pos hz]
      have : max 0 (teams - pick_in_round start teams) = sr * teams - start := by omega
      rw [this]
      push_cast
      ring
    · rw [if_neg hz]
      have hzero : sr * teams - start = 0 := by omega
      rw [hzero]
      push_cast
      ring

/-! ### Weight-curve lemmas -/

theorem dictLookup_cons_ne {r k : ℤ} {w : ℚ} {es : List (ℤ × ℚ)} (hk : r ≠ k) :
    dictLookup r ((k, w) :: es) = dictLookup r es := by
  simp [dictLookup, hk]

theorem dictLookup_none_of_gt20 {r : ℤ} (h : 20 < r) : dictLookup r ROUND_WEIGHTS = none := by
  unfold ROUND_WEIGHTS
  iterate 20 rw [dictLookup_cons_ne (by omega)]
  rfl

theorem weight_of_gt20 {r : ℤ} (h : 20 < r) :
    weight_for_round r = qmax 0.55 (0.60 - 0.01 * ((r - 20 : ℤ) : ℚ)) := by
  unfold weight_for_round
  rw [dictLookup_none_of_gt20 h]
  have : max 0 (r - 20) = r - 20 := by omega
  rw [this]

theorem qmax_le_left (a b : ℚ) : a ≤ qmax a b := by
  unfold qmax
  split_ifs with h
  · exact h
  · exact le_refl a

theorem weight_tbl_lower {r : ℤ} (h1 : 1 ≤ r) (h2 : r ≤ 20) : 0.65 ≤ weight_for_round r := by
  interval_cases r <;> norm_num [weight_for_round, ROUND_WEIGHTS, dictLookup]

theorem weight_tbl_step {k : ℤ} (h1 : 1 ≤ k) (h2 : k < 20) :
    weight_for_round (k + 1) ≤ weight_for_round k := by
  interval_cases k <;> norm_num [weight_for_round, ROUND_WEIGHTS, dictLookup]

theorem weight_tbl_anti {r s : ℤ} (h1 : 1 ≤ r) (hrs : r ≤ s) (h2 : s ≤ 20) :
    weight_for_round s ≤ weight_for_round r := by
  refine @Int.le_induction (fun n => n ≤ 20 → weight_for_round n ≤ weight_for_round r) r
    (fun _ => le_refl _) (fun n hn ih hn20 => ?_) s hrs h2
  exact le_trans (weight_tbl_step (by omega) (by omega)) (ih (by omega))

theorem weight_tail_le {r : ℤ} (h : 20 < r) : weight_for_round r ≤ 0.59 := by
  rw [weight_of_gt20 h]
  have hc : (1 : ℚ) ≤ (r : ℚ) - 20 := by
    have h21 : ((21 : ℤ) : ℚ) ≤ (r : ℚ) := by exact_mod_cast (show (21:ℤ) ≤ r by omega)
    push_cast at h21
    linarith
  unfold qmax
  split_ifs with hq
  · push_cast
    norm_num
    linarith
  · norm_num

theorem qmax_mono_right {a b c : ℚ} (h : b ≤ c) : qmax a b ≤ qmax a c := by
  unfold qmax
  split_ifs <;> linarith

theorem weight_tail_anti {r s : ℤ} (h : 20 < r) (hrs : r ≤ s) :
    weight_for_round s ≤ weight_for_round r := by
  rw [weight_of_gt20 h, weight_of_gt20 (by omega)]
  refine qmax_mono_right ?_
  have hc : (r : ℚ) ≤ (s : ℚ) := by exact_mod_cast hrs
  push_cast
  norm_num
  linarith

/-- The weight curve is non-increasing on rounds `≥ 1`. -/
theorem weight_antitone {r s : ℤ} (hr : 1 ≤ r) (hrs : r ≤ s) :
    weight_for_round s ≤ weight_for_round r := by
  by_cases h1 : s ≤ 20
  · exact weight_tbl_anti hr hrs h1
  · by_cases h2 : r ≤ 20
    · calc weight_for_round s ≤ 0.59 := weight_tail_le (by omega)
        _ ≤ 0.65 := by norm_num
        _ ≤ weight_for_round r := weight_tbl_lower hr h2
    · exact weight_tail_anti (by omega) hrs

/-- Every round's weight is strictly positive (rounds `≥ 1`). -/
theorem weight_pos {r : ℤ} (hr : 1 ≤ r) : 0 < weight_for_round r := by
  by_cases h : r ≤ 20
  · calc (0 : ℚ) < 0.65 := by norm_num
      _ ≤ weight_for_round r := weight_tbl_lower hr h
  · calc (0 : ℚ) < 0.55 := by norm_num
      _ ≤ qmax 0.55 (0.60 - 0.01 * ((r - 20 : ℤ) : ℚ)) := qmax_le_left _ _
      _ = weight_for_round r := (weight_of_gt20 (by omega)).symm

/-! ### Shape lemmas for `weighted_span_sum` -/

theorem weighted_span_sum_of_lt {a b t : ℤ} (h : a < b) :
    weighted_span_sum a b t = span_total a b t := by
  unfold weighted_span_sum
  rw [if_neg (by omega), if_pos (by omega)]
  ring

theorem weighted_span_sum_of_gt {a b t : ℤ} (h : b < a) :
    weighted_span_sum a b t = -span_total b a t := by
  unfold weighted_span_sum
  rw [if_neg (by omega), if_neg (by omega)]
  ring

theorem weighted_span_sum_self (a t : ℤ) : weighted_span_sum a a t = 0 := by
  unfold weighted_span_sum
  rw [if_pos rfl]

/-- For an increasing span the signed sum is just the per-pick sum over `(lo, hi]`. -/
theorem weighted_span_sum_eq_pickSum {lo hi t : ℤ} (ht : 1 ≤ t) (hlo : 1 ≤ lo)
    (h : lo < hi) : weighted_span_sum lo hi t = pickSum lo hi t := by
  rw [weighted_span_sum_of_lt h, span_total_eq_pickSum ht hlo h]

theorem pickSum_same_round {lo hi teams : ℤ} (ht : 1 ≤ teams) (hlo : 1 ≤ lo) (hle : lo ≤ hi)
    (hr : round_from_overall lo teams = round_from_overall hi teams) :
    pickSum lo hi teams = ((hi - lo : ℤ) : ℚ) * weight_for_round (round_from_overall lo teams) := by
  have hb1 := round_bounds hlo ht
  have hb2 := round_bounds (show 1 ≤ hi by omega) ht
  refine pickSum_const hle (fun p h1 h2 => ?_)
  refine round_eq_of_bounds ht (round_from_overall_pos _ _) (by omega) ?_
  calc p ≤ hi := h2
    _ ≤ round_from_overall hi teams * teams := hb2.2
    _ = round_from_overall lo teams * teams := by rw [hr]

/-! ### Claim theorems: C1, C3, C6 -/

/-- C1: for all `a, b, teams ≥ 1`, the chunked-by-round computation in
`weighted_span_sum a b teams` equals the naive per-pick definition: sign times
the sum of `weight_for_round (round_from_overall p teams)` over every pick `p`
in the half-open range `(min a b, max a b]`, with sign `+1` if `b > a` and
`-1` if `b < a`. -/
theorem weighted_span_sum_eq_naive (a b teams : ℤ) (ha : 1 ≤ a) (hb : 1 ≤ b)
    (ht : 1 ≤ teams) : weighted_span_sum a b teams = naive_span_sum a b teams := by
  unfold naive_span_sum
  rcases lt_trichotomy a b with h | h | h
  · rw [weighted_span_sum_of_lt h, if_pos h, min_eq_left h.le, max_eq_right h.le,
      span_total_eq_pickSum ht ha h]
    ring
  · subst h
    rw [weighted_span_sum_self, if_neg (lt_irrefl a), if_neg (lt_irrefl a)]
    ring
  · rw [weighted_span_sum_of_gt h, if_neg (by omega), if_pos h, min_eq_right h.le,
      max_eq_left h.le, span_total_eq_pickSum ht hb h]
    ring

theorem weighted_span_sum_eq_naive_witness :
    (1:ℤ) ≤ 3 ∧ (1:ℤ) ≤ 30 ∧ (1:ℤ) ≤ 12 ∧
      weighted_span_sum 3 30 12 = naive_span_sum 3 30 12 :=
  ⟨by decide, by decide, by decide,
    weighted_span_sum_eq_naive 3 30 12 (by decide) (by decide) (by decide)⟩

/-- C3: for every `overall ≥ 1` and `teams ≥ 1`, reconstructing the overall pick
from the geometry functions is exact:
`(round_from_overall overall teams - 1) * teams + pick_in_round overall teams = overall`. -/
theorem round_pick_roundtrip (overall teams : ℤ) (ho : 1 ≤ overall) (ht : 1 ≤ teams) :
    (round_from_overall overall teams - 1) * teams + pick_in_round overall teams = overall :=
  overall_roundtrip ho ht

theorem round_pick_roundtrip_witness :
    (1:ℤ) ≤ 23 ∧ (1:ℤ) ≤ 12 ∧
      (round_from_overall 23 12 - 1) * 12 + pick_in_round 23 12 = 23 :=
  ⟨by decide, by decide, round_pick_roundtrip 23 12 (by decide) (by decide)⟩

/-- C6: `weighted_span_sum` is antisymmetric in its first two arguments
(`weighted_span_sum a b teams = -weighted_span_sum b a teams`), and in
particular the zero-span case is exactly `0`. -/
theorem weighted_span_sum_antisymm (a b teams : ℤ) (ht : 1 ≤ teams) :
    weighted_span_sum a b teams = -weighted_span_sum b a teams ∧
      weighted_span_sum a a teams = 0 := by
  refine ⟨?_, weighted_span_sum_self a teams⟩
  rcases lt_trichotomy a b with h | h | h
  · rw [weighted_span_sum_of_lt h, weighted_span_sum_of_gt h]
    ring
  · subst h
    rw [weighted_span_sum_self]
    ring
  · rw [weighted_span_sum_of_gt h, weighted_span_sum_of_lt h]

theorem weighted_span_sum_antisymm_witness :
    (1:ℤ) ≤ 10 ∧
      (weighted_span_sum 5 9 10 = -weighted_span_sum 9 5 10 ∧
        weighted_span_sum 5 5 10 = 0) :=
  ⟨by decide, weighted_span_sum_antisymm 5 9 10 (by decide)⟩

/-! ### Claim C2: monotonicity and earlier-round preference -/

/-- C2 counterexample: with one team per round, the spans `(25, 26]` and
`(26, 27]` have equal length one, the first lies entirely in an earlier round
than the second (round 26 vs round 27), yet both sums equal the tapered floor
weight `0.55`, so the earlier-round span does **not** receive a strictly
larger unsigned sum. -/
theorem equal_length_spans_can_tie :
    (26 : ℤ) - 25 = 27 - 26 ∧
      round_from_overall 26 1 < round_from_overall (26 + 1) 1 ∧
      weighted_span_sum 25 26 1 = weighted_span_sum 26 27 1 ∧
      ¬ weighted_span_sum 26 27 1 < weighted_span_sum 25 26 1 := by
  have h1 : weighted_span_sum 25 26 1 = 0.55 := by
    norm_num [weighted_span_sum, span_total, round_from_overall, pick_in_round,
      weight_for_round, ROUND_WEIGHTS, dictLookup, qmax, Finset.Ico_self]
  have h2 : weighted_span_sum 26 27 1 = 0.55 := by
    norm_num [weighted_span_sum, span_total, round_from_overall, pick_in_round,
      weight_for_round, ROUND_WEIGHTS, dictLookup, qmax, Finset.Ico_self]
  refine ⟨by decide, by decide, ?_, ?_⟩
  · rw [h1, h2]
  · rw [h1, h2]
    exact lt_irrefl _

/-- C2 (amended): for fixed `teams ≥ 1`, the span sum is strictly increasing in
span distance within a fixed round; and for equal-length spans where one lies
entirely in earlier rounds than the other, the earlier-round span receives an
unsigned sum **at least as large** (strictness can fail once both spans sit in
the flat `0.55` tail of the weight curve, see `equal_length_spans_can_tie`). -/
theorem span_monotonicity_and_round_preference (teams : ℤ) (ht : 1 ≤ teams) :
    (∀ adp keep1 keep2 : ℤ, 1 ≤ adp → adp < keep1 → keep1 < keep2 →
        round_from_overall adp teams = round_from_overall keep2 teams →
        weighted_span_sum adp keep1 teams < weighted_span_sum adp keep2 teams) ∧
    (∀ lo1 hi1 lo2 hi2 : ℤ, 1 ≤ lo1 → lo1 < hi1 → 1 ≤ lo2 → lo2 < hi2 →
        hi1 - lo1 = hi2 - lo2 →
        round_from_overall hi1 teams < round_from_overall (lo2 + 1) teams →
        weighted_span_sum lo2 hi2 teams ≤ weighted_span_sum lo1 hi1 teams) := by
  constructor
  · intro adp k1 k2 h1 h2 h3 hr
    have hra : round_from_overall adp teams ≤ round_from_overall k1 teams :=
      round_from_overall_mono h2.le
    have hrb : round_from_overall k1 teams ≤ round_from_overall k2 teams :=
      round_from_overall_mono h3.le
    have hr1 : round_from_overall adp teams = round_from_overall k1 teams :=
      le_antisymm hra (hr ▸ hrb)
    have hr2 : round_from_overall k1 teams = round_from_overall k2 teams := by
      rw [← hr1, hr]
    rw [weighted_span_sum_eq_pickSum ht h1 h2,
      weighted_span_sum_eq_pickSum ht h1 (h2.trans h3),
      pickSum_split teams h2.le h3.le]
    have hpos : 0 < pickSum k1 k2 teams := by
      rw [pickSum_same_round ht (by omega) h3.le hr2]
      have hw : 0 < weight_for_round (round_from_overall k1 teams) :=
        weight_pos (round_from_overall_pos _ _)
      have hd : (0 : ℚ) < ((k2 - k1 : ℤ) : ℚ) := by
        exact_mod_cast (show (0:ℤ) < k2 - k1 by omega)
      positivity
    linarith
  · intro lo1 hi1 lo2 hi2 h1 h2 h3 h4 hlen hr
    rw [weighted_span_sum_eq_pickSum ht h1 h2, weighted_span_sum_eq_pickSum ht h3 h4]
    unfold pickSum
    have hmap : Finset.Ico (lo2 + 1) (hi2 + 1) =
        (Finset.Ico (lo1 + 1) (hi1 + 1)).map (addLeftEmbedding (lo2 - lo1)) := by
      rw [Finset.map_add_left_Ico]
      congr 1 <;> omega
    rw [hmap, Finset.sum_map]
    refine Finset.sum_le_sum (fun p hp => ?_)
    have hmem := Finset.mem_Ico.mp hp
    simp only [addLeftEmbedding_apply]
    refine weight_antitone (round_from_overall_pos _ _) ?_
    calc round_from_overall p teams
        ≤ round_from_overall hi1 teams := round_from_overall_mono (by omega)
      _ ≤ round_from_overall (lo2 + 1) teams := hr.le
      _ ≤ round_from_overall (lo2 - lo1 + p) teams := round_from_overall_mono (by omega)

theorem span_monotonicity_and_round_preference_witness :
    weighted_span_sum 13 14 12 < weighted_span_sum 13 15 12 ∧
      weighted_span_sum 30 32 12 ≤ weighted_span_sum 3 5 12 :=
  ⟨(span_monotonicity_and_round_preference 12 (by decide)).1 13 14 15
      (by decide) (by decide) (by decide) (by decide),
    (span_monotonicity_and_round_preference 12 (by decide)).2 3 5 30 32
      (by decide) (by decide) (by decide) (by decide) (by decide) (by decide)⟩

/-! ### Proposal items, `fix_list` and `normalize_value_and_sort_weighted`

A proposal entry from the model is a JSON object.  The numeric fields the code
reads are modelled as `Option ℤ` / `Option ℚ`: `none` stands for a field that
is missing or fails `int(...)` coercion, `some v` for a field that coerces to
`v`.  All remaining entries of the dict (player name, notes, ...) are
passed through untouched and are modelled by the opaque `rest` payload. -/

structure Item where
  keep_overall : Option ℤ
  estimated_adp_overall : Option ℤ
  value_vs_adp : Option ℤ
  capital_weight : Option ℚ
  adjusted_value : Option ℚ
  rest : List (String × String)
deriving DecidableEq

/-- Python `round(x, 3)`: round to 3 decimal places (nearest-integer rounding
of `1000 * x`; the tie-breaking convention of binary floats is immaterial to
the claims). -/
def roundTo3 (q : ℚ) : ℚ := ((round (q * 1000) : ℤ) : ℚ) / 1000

/-- The body of the `for` loop in `fix_list`: coerce the two untrusted numeric
fields (dropping the entry if either fails), then overwrite `value_vs_adp`,
`capital_weight` and `adjusted_value` with the recomputed values. -/
def fix_item (teams : ℤ) (it : Item) : Option Item :=
  match it.keep_overall, it.estimated_adp_overall with
  | some ko, some adp =>
    let raw := ko - adp
    let weighted := weighted_span_sum adp ko teams
    let avg_w : ℚ := if raw ≠ 0 then weighted / ((raw : ℤ) : ℚ) else 0
    some { it with
      value_vs_adp := some raw
      capital_weight := some (roundTo3 avg_w)
      adjusted_value := some weighted }
  | _, _ => none

/-- Function `fix_list` from `normalize_value_and_sort_weighted`. -/
def fix_list (teams : ℤ) (items : List Item) : List Item :=
  items.filterMap (fix_item teams)

/-- The Python sort key
`(x.get("adjusted_value", -1e12), -int(x.get("estimated_adp_overall", 999999)))`. -/
def sortKey (it : Item) : ℚ × ℤ :=
  (it.adjusted_value.getD (-1000000000000), -(it.estimated_adp_overall.getD 999999))

/-- Lexicographic `≤` on sort keys. -/
def keyLe (a b : ℚ × ℤ) : Bool :=
  decide (a.1 < b.1) || (decide (a.1 = b.1) && decide (a.2 ≤ b.2))

/-- Item `a` may precede `b` in the reverse-sorted output: its key is lex-`≥`. -/
def itemLe (a b : Item) : Bool := keyLe (sortKey b) (sortKey a)

/-- Python `list.sort(key=..., reverse=True)`: stable sort, descending in the key. -/
def sortItems (items : List Item) : List Item := items.mergeSort itemLe

/-- Python slice `xs[:k]` (for negative `k` it drops `|k|` elements from the
end; the handler only ever calls this with `k = keepers_allowed ≥ 0`). -/
def pySlice {α : Type} (k : ℤ) (xs : List α) : List α :=
  if 0 ≤ k then xs.take k.toNat else xs.take (xs.length - (-k).toNat)

/-- The `recommendations` object: the two proposal lists. -/
structure Recs where
  keep : List Item
  bench : List Item
deriving DecidableEq

/-- Function `normalize_value_and_sort_weighted` from app.py: fix both lists, sort each
by adjusted value descending (tie-break: smaller estimated ADP first), and cap
the keep list at `keepers_allowed`. -/
def normalize_value_and_sort_weighted (recs : Recs) (keepers_allowed teams : ℤ) : Recs :=
  let keep := sortItems (fix_list teams recs.keep)
  let bench := sortItems (fix_list teams recs.bench)
  { keep := pySlice keepers_allowed keep, bench := bench }

/-! ### Properties of `fix_list` entries: claims C4 and C10 -/

theorem fix_item_some {teams : ℤ} {it it' : Item} (h : fix_item teams it = some it') :
    ∃ ko adp : ℤ, it.keep_overall = some ko ∧ it.estimated_adp_overall = some adp ∧
      it' = { it with
        value_vs_adp := some (ko - adp)
        capital_weight := some (roundTo3 (if ko - adp ≠ 0 then
          weighted_span_sum adp ko teams / ((ko - adp : ℤ) : ℚ) else 0))
        adjusted_value := some (weighted_span_sum adp ko teams) } := by
  cases hko : it.keep_overall with
  | none => simp [fix_item, hko] at h
  | some ko =>
    cases hadp : it.estimated_adp_overall with
    | none => simp [fix_item, hko, hadp] at h
    | some adp =>
      have h' := h
      simp only [fix_item, hko, hadp, Option.some.injEq] at h'
      exact ⟨ko, adp, rfl, rfl, h'.symm⟩

/-- C4: every proposal surviving numeric coercion has its `value_vs_adp` and
`adjusted_value` fields overwritten server-side, regardless of any
model-supplied values: `value_vs_adp = keep_overall - estimated_adp_overall`
and `adjusted_value = weighted_span_sum estimated_adp_overall keep_overall teams`. -/
theorem values_overwritten (teams : ℤ) (items : List Item) (it' : Item)
    (h : it' ∈ fix_list teams items) :
    ∃ ko adp : ℤ, it'.keep_overall = some ko ∧ it'.estimated_adp_overall = some adp ∧
      it'.value_vs_adp = some (ko - adp) ∧
      it'.adjusted_value = some (weighted_span_sum adp ko teams) := by
  obtain ⟨it, _, hfix⟩ := List.mem_filterMap.mp h
  obtain ⟨ko, adp, hko, hadp, hit'⟩ := fix_item_some hfix
  subst hit'
  refine ⟨ko, adp, ?_, ?_, rfl, rfl⟩
  · simp [hko]
  · simp [hadp]

/-- C10: `capital_weight` is computed with a guarded division: when
`value_vs_adp = ko - adp` is nonzero it is `adjusted_value / value_vs_adp`
rounded to three decimals, and when it is zero it is exactly `0`. -/
theorem capital_weight_guarded (teams : ℤ) (items : List Item) (it' : Item)
    (h : it' ∈ fix_list teams items) :
    ∃ ko adp : ℤ, it'.keep_overall = some ko ∧ it'.estimated_adp_overall = some adp ∧
      (ko - adp ≠ 0 → it'.capital_weight =
        some (roundTo3 (weighted_span_sum adp ko teams / ((ko - adp : ℤ) : ℚ)))) ∧
      (ko - adp = 0 → it'.capital_weight = some 0) := by
  obtain ⟨it, _, hfix⟩ := List.mem_filterMap.mp h
  obtain ⟨ko, adp, hko, hadp, hit'⟩ := fix_item_some hfix
  subst hit'
  refine ⟨ko, adp, hko, hadp, fun hne => ?_, fun hz => ?_⟩
  · simp [hne]
  · simp only [hz]
    norm_num [roundTo3]

/-- Demo items for the witnesses of C4, C8 and C10. -/
def demoItem : Item := ⟨some 23, some 15, none, none, none, []⟩

def demoItemZero : Item := ⟨some 7, some 7, some 99, some 3, some 5, []⟩

def demoFixed : Item :=
  { demoItem with
    value_vs_adp := some (23 - 15)
    capital_weight := some (roundTo3 (if (23: ℤ) - 15 ≠ 0 then
      weighted_span_sum 15 23 12 / (((23: ℤ) - 15 : ℤ) : ℚ) else 0))
    adjusted_value := some (weighted_span_sum 15 23 12) }

def demoZeroFixed : Item :=
  { demoItemZero with
    value_vs_adp := some (7 - 7)
    capital_weight := some (roundTo3 (if (7: ℤ) - 7 ≠ 0 then
      weighted_span_sum 7 7 12 / (((7: ℤ) - 7 : ℤ) : ℚ) else 0))
    adjusted_value := some (weighted_span_sum 7 7 12) }

theorem values_overwritten_witness :
    ∃ ko adp : ℤ, demoFixed.keep_overall = some ko ∧
      demoFixed.estimated_adp_overall = some adp ∧
      demoFixed.value_vs_adp = some (ko - adp) ∧
      demoFixed.adjusted_value = some (weighted_span_sum adp ko 12) :=
  values_overwritten 12 [demoItem] demoFixed
    (by simp [fix_list, fix_item, demoItem, demoFixed])

theorem capital_weight_guarded_witness :
    ∃ ko adp : ℤ, demoZeroFixed.keep_overall = some ko ∧
      demoZeroFixed.estimated_adp_overall = some adp ∧
      (ko - adp ≠ 0 → demoZeroFixed.capital_weight =
        some (roundTo3 (weighted_span_sum adp ko 12 / ((ko - adp : ℤ) : ℚ)))) ∧
      (ko - adp = 0 → demoZeroFixed.capital_weight = some 0) :=
  capital_weight_guarded 12 [demoItemZero] demoZeroFixed
    (by simp [fix_list, fix_item, demoItemZero, demoZeroFixed])

/-! ### The ordering used by the sort, and claim C5 -/

theorem keyLe_iff {a b : ℚ × ℤ} :
    keyLe a b = true ↔ a.1 < b.1 ∨ (a.1 = b.1 ∧ a.2 ≤ b.2) := by
  simp [keyLe]

theorem itemLe_trans (a b c : Item) (h1 : itemLe a b) (h2 : itemLe b c) : itemLe a c := by
  unfold itemLe at *
  rw [keyLe_iff] at h1 h2 ⊢
  rcases h1 with h1 | ⟨h1, h1'⟩ <;> rcases h2 with h2 | ⟨h2, h2'⟩
  · exact Or.inl (lt_trans h2 h1)
  · exact Or.inl (lt_of_le_of_lt (le_of_eq h2) h1)
  · exact Or.inl (lt_of_lt_of_le h2 (le_of_eq h1))
  · exact Or.inr ⟨h2.trans h1, le_trans h2' h1'⟩

theorem itemLe_total (a b : Item) : itemLe a b || itemLe b a := by
  unfold itemLe
  rw [Bool.or_eq_true, keyLe_iff, keyLe_iff]
  rcases lt_trichotomy (sortKey a).1 (sortKey b).1 with h | h | h
  · exact Or.inr (Or.inl h)
  · rcases le_total (sortKey b).2 (sortKey a).2 with h' | h'
    · exact Or.inl (Or.inr ⟨h.symm, h'⟩)
    · exact Or.inr (Or.inr ⟨h, h'⟩)
  · exact Or.inl (Or.inl h)

/-- Item `a` is ranked no worse than `b`: a strictly larger adjusted value, or an
equal adjusted value and a no-larger estimated ADP (the tie-break). -/
def RankedBefore (a b : Item) : Prop :=
  b.adjusted_value.getD (-1000000000000) < a.adjusted_value.getD (-1000000000000) ∨
    (b.adjusted_value.getD (-1000000000000) = a.adjusted_value.getD (-1000000000000) ∧
      a.estimated_adp_overall.getD 999999 ≤ b.estimated_adp_overall.getD 999999)

theorem itemLe_imp_rankedBefore {a b : Item} (h : itemLe a b = true) : RankedBefore a b := by
  unfold itemLe sortKey at h
  rw [keyLe_iff] at h
  unfold RankedBefore
  rcases h with h | ⟨h, h'⟩
  · exact Or.inl h
  · simp only at h h' ⊢
    exact Or.inr ⟨h, by omega⟩

theorem pySlice_sublist {α : Type} (k : ℤ) (xs : List α) : List.Sublist (pySlice k xs) xs := by
  unfold pySlice
  split_ifs <;> exact List.take_sublist _ _

theorem sortItems_pairwise (l : List Item) :
    List.Pairwise (fun a b => itemLe a b = true) (sortItems l) := by
  unfold sortItems
  exact List.sorted_mergeSort itemLe_trans itemLe_total l

/-- C5: after `normalize_value_and_sort_weighted`, the keep and bench lists
are each sorted by `adjusted_value` descending with ties broken by smaller
`estimated_adp_overall`; keep is truncated to at most `keepers_allowed`
entries, and bench is never truncated. -/
theorem ranking_sorted_and_truncated (recs : Recs) (keepers_allowed teams : ℤ)
    (hka : 0 ≤ keepers_allowed) :
    ((normalize_value_and_sort_weighted recs keepers_allowed teams).keep.length : ℤ)
        ≤ keepers_allowed ∧
      List.Pairwise RankedBefore
        (normalize_value_and_sort_weighted recs keepers_allowed teams).keep ∧
      List.Pairwise RankedBefore
        (normalize_value_and_sort_weighted recs keepers_allowed teams).bench ∧
      (normalize_value_and_sort_weighted recs keepers_allowed teams).bench.length
        = (fix_list teams recs.bench).length := by
  unfold normalize_value_and_sort_weighted
  refine ⟨?_, ?_, ?_, ?_⟩
  · simp only [pySlice, if_pos hka, List.length_take]
    have h1 := Int.toNat_of_nonneg hka
    have h2 : min keepers_allowed.toNat
        (sortItems (fix_list teams recs.keep)).length ≤ keepers_allowed.toNat :=
      min_le_left _ _
    omega
  · exact ((sortItems_pairwise _).sublist (pySlice_sublist _ _)).imp
      (fun h => itemLe_imp_rankedBefore h)
  · exact (sortItems_pairwise _).imp (fun h => itemLe_imp_rankedBefore h)
  · exact List.length_mergeSort _

theorem ranking_sorted_and_truncated_witness :
    ((normalize_value_and_sort_weighted ⟨[demoItem, demoItemZero], [demoItemZero]⟩ 1 12).keep.length : ℤ)
        ≤ 1 ∧
      List.Pairwise RankedBefore
        (normalize_value_and_sort_weighted ⟨[demoItem, demoItemZero], [demoItemZero]⟩ 1 12).keep ∧
      List.Pairwise RankedBefore
        (normalize_value_and_sort_weighted ⟨[demoItem, demoItemZero], [demoItemZero]⟩ 1 12).bench ∧
      (normalize_value_and_sort_weighted ⟨[demoItem, demoItemZero], [demoItemZero]⟩ 1 12).bench.length
        = (fix_list 12 [demoItemZero]).length :=
  ranking_sorted_and_truncated ⟨[demoItem, demoItemZero], [demoItemZero]⟩ 1 12 (by decide)

/-! ### Claim C7: idempotence of the normalisation -/

theorem fix_item_idem {teams : ℤ} {it it' : Item} (h : fix_item teams it = some it') :
    fix_item teams it' = some it' := by
  obtain ⟨ko, adp, hko, hadp, hit'⟩ := fix_item_some h
  subst hit'
  obtain ⟨k, e, v, c, a, rest⟩ := it
  simp only at hko hadp
  subst hko
  subst hadp
  rfl

theorem fix_list_mem_fixed {teams : ℤ} {items : List Item} {x : Item}
    (hx : x ∈ fix_list teams items) : fix_item teams x = some x := by
  obtain ⟨a, _, ha⟩ := List.mem_filterMap.mp hx
  exact fix_item_idem ha

theorem fix_list_of_fixed {teams : ℤ} {l : List Item}
    (h : ∀ x ∈ l, fix_item teams x = some x) : fix_list teams l = l := by
  induction l with
  | nil => rfl
  | cons a as ih =>
    unfold fix_list at *
    rw [List.filterMap_cons, h a (List.mem_cons_self a as),
      ih (fun x hx => h x (List.mem_cons_of_mem a hx))]

theorem sortItems_of_pairwise {l : List Item}
    (h : List.Pairwise (fun a b => itemLe a b = true) l) : sortItems l = l :=
  List.mergeSort_of_sorted h

/-- C7: `normalize_value_and_sort_weighted` is idempotent — re-running it on
its own output with the same `keepers_allowed ≥ 0` and `teams` returns exactly
the same keep and bench lists. -/
theorem normalize_idempotent (recs : Recs) (keepers_allowed teams : ℤ)
    (hka : 0 ≤ keepers_allowed) :
    normalize_value_and_sort_weighted
        (normalize_value_and_sort_weighted recs keepers_allowed teams) keepers_allowed teams
      = normalize_value_and_sort_weighted recs keepers_allowed teams := by
  have main : ∀ l : List Item,
      sortItems (fix_list teams (pySlice keepers_allowed (sortItems (fix_list teams l)))) =
        pySlice keepers_allowed (sortItems (fix_list teams l)) := by
    intro l
    have hfixed : fix_list teams (pySlice keepers_allowed (sortItems (fix_list teams l))) =
        pySlice keepers_allowed (sortItems (fix_list teams l)) := by
      refine fix_list_of_fixed (fun x hx => ?_)
      have hx1 : x ∈ sortItems (fix_list teams l) :=
        (pySlice_sublist _ _).mem hx
      have hx2 : x ∈ fix_list teams l := List.mem_mergeSort.mp hx1
      exact fix_list_mem_fixed hx2
    rw [hfixed]
    exact sortItems_of_pairwise
      ((sortItems_pairwise _).sublist (pySlice_sublist _ _))
  have mainNoCap : ∀ l : List Item,
      sortItems (fix_list teams (sortItems (fix_list teams l))) =
        sortItems (fix_list teams l) := by
    intro l
    have hfixed : fix_list teams (sortItems (fix_list teams l)) =
        sortItems (fix_list teams l) :=
      fix_list_of_fixed (fun x hx => fix_list_mem_fixed (List.mem_mergeSort.mp hx))
    rw [hfixed]
    exact sortItems_of_pairwise (sortItems_pairwise _)
  unfold normalize_value_and_sort_weighted
  simp only
  rw [main, mainNoCap]
  have hslice : ∀ l : List Item,
      pySlice keepers_allowed (pySlice keepers_allowed l) = pySlice keepers_allowed l := by
    intro l
    unfold pySlice
    rw [if_pos hka, if_pos hka, List.take_take, min_self]
  rw [hslice]

theorem normalize_idempotent_witness :
    normalize_value_and_sort_weighted
        (normalize_value_and_sort_weighted ⟨[demoItem, demoItemZero], [demoItemZero]⟩ 1 12) 1 12
      = normalize_value_and_sort_weighted ⟨[demoItem, demoItemZero], [demoItemZero]⟩ 1 12 :=
  normalize_idempotent ⟨[demoItem, demoItemZero], [demoItemZero]⟩ 1 12 (by decide)

/-! ### Claim C8: malformed proposal entries are dropped, the rest processed -/

theorem fix_item_eq_none {teams : ℤ} {bad : Item}
    (hbad : bad.keep_overall = none ∨ bad.estimated_adp_overall = none) :
    fix_item teams bad = none := by
  rcases hbad with h | h
  · simp [fix_item, h]
  · cases hko : bad.keep_overall <;> simp [fix_item, hko, h]

/-- C8: an entry whose `keep_overall` or `estimated_adp_overall` fails integer
coercion is silently dropped; all other entries are still processed, and the
normalisation as a whole still succeeds, producing the same output as if the
bad entry had not been present. -/
theorem malformed_entry_dropped (teams keepers_allowed : ℤ)
    (pre post bench : List Item) (bad : Item)
    (hbad : bad.keep_overall = none ∨ bad.estimated_adp_overall = none) :
    fix_list teams (pre ++ bad :: post) = fix_list teams pre ++ fix_list teams post ∧
      normalize_value_and_sort_weighted ⟨pre ++ bad :: post, bench⟩ keepers_allowed teams =
        normalize_value_and_sort_weighted ⟨pre ++ post, bench⟩ keepers_allowed teams := by
  have h1 : fix_list teams (pre ++ bad :: post) = fix_list teams pre ++ fix_list teams post := by
    unfold fix_list
    rw [List.filterMap_append, List.filterMap_cons, fix_item_eq_none hbad]
  refine ⟨h1, ?_⟩
  unfold normalize_value_and_sort_weighted
  simp only
  rw [h1]
  unfold fix_list
  rw [List.filterMap_append]

theorem malformed_entry_dropped_witness :
    fix_list 12 ([demoItem] ++ Item.mk none (some 44) none none none [] :: [demoItemZero]) =
        fix_list 12 [demoItem] ++ fix_list 12 [demoItemZero] ∧
      normalize_value_and_sort_weighted
          ⟨[demoItem] ++ Item.mk none (some 44) none none none [] :: [demoItemZero], []⟩ 2 12 =
        normalize_value_and_sort_weighted ⟨[demoItem] ++ [demoItemZero], []⟩ 2 12 :=
  malformed_entry_dropped 12 2 [demoItem] [demoItemZero] []
    (Item.mk none (some 44) none none none []) (Or.inl rfl)

/-! ### The request handler (`lambda_handler`) up to the valuation engine

A JSON field that the handler coerces with `int(...)` is modelled by
`NumField`: absent from the dict (`missing`); present but making `int(...)`
raise, e.g. a non-numeric string (`malformed`); an integer (`intval z`); or a
non-integer JSON number, which Python's `int(...)` accepts by truncation
(`floatval trunc`, carrying the truncated value `int(x) = trunc`).
`lambda_handler_route` mirrors the handler's control flow up to (and
excluding) the external OpenAI call: reaching the engine is represented by
the `engineCall` result, every early `bad_request(...)` return by
`clientError 400 msg`. -/

inductive NumField where
  | missing
  | malformed
  | intval (z : ℤ)
  | floatval (trunc : ℤ)
deriving DecidableEq

def NumField.present : NumField → Bool
  | .missing => false
  | _ => true

/-- Result of `int(...)` on the field: `none` when it raises. A non-integer
numeric succeeds, yielding its truncation. -/
def NumField.toInt? : NumField → Option ℤ
  | .intval z => some z
  | .floatval trunc => some trunc
  | _ => none

structure LeagueIn where
  teams : NumField
  format_present : Bool
  qb_slots : NumField
  your_slot : NumField
  keepers_allowed : NumField
deriving DecidableEq

structure PlayerIn where
  player : String
  round : Option ℤ
  pick : Option ℤ
  keeper_overall : Option ℤ
  team_abbr : String
deriving DecidableEq

inductive HandlerStep where
  | clientError (statusCode : ℤ) (message : String)
  | engineCall (teams keepers_allowed your_slot qb_slots : ℤ) (players : List PlayerIn)
deriving DecidableEq

/-- Function `bad_request` from app.py: statusCode 400 plus an error message body. -/
def bad_request (msg : String) : HandlerStep := .clientError 400 msg

/-- The `try: teams = int(league["teams"]) ...` block: the four coercions run
in sequence and the single `except` branch reports a client error as soon as
one of them raises. -/
def coerceLeague (league : LeagueIn) : Option (ℤ × ℤ × ℤ × ℤ) :=
  match league.teams.toInt? with
  | none => none
  | some teams =>
    match league.keepers_allowed.toInt? with
    | none => none
    | some keepers_allowed =>
      match league.your_slot.toInt? with
      | none => none
      | some your_slot =>
        match league.qb_slots.toInt? with
        | none => none
        | some qb_slots => some (teams, keepers_allowed, your_slot, qb_slots)

/-- Function `lambda_handler` from app.py, followed through to the point where it calls
the OpenAI engine (everything before `client.chat.completions.create`). -/
def lambda_handler_route (body_present body_valid_json : Bool)
    (league : LeagueIn) (players : List PlayerIn) : HandlerStep :=
  if body_present = false then bad_request "Missing body."
  else if body_valid_json = false then bad_request "Body must be valid JSON."
  else if league.teams.present = false then bad_request "league.teams is required"
  else if league.format_present = false then bad_request "league.format is required"
  else if league.qb_slots.present = false then bad_request "league.qb_slots is required"
  else if league.your_slot.present = false then bad_request "league.your_slot is required"
  else if league.keepers_allowed.present = false then
    bad_request "league.keepers_allowed is required"
  else
    match coerceLeague league with
    | none => bad_request
        "league.teams, league.keepers_allowed, league.qb_slots, and league.your_slot must be integers."
    | some (teams, keepers_allowed, your_slot, qb_slots) =>
      if teams ≤ 0 ∨ keepers_allowed < 0 ∨ your_slot ≤ 0 ∨ your_slot > teams then
        bad_request "Invalid league values (teams > 0, 0<=keepers_allowed, 1<=your_slot<=teams)."
      else if players.length = 0 then
        bad_request "players array is required and must be non-empty."
      else if players.any (fun p => decide (p.player = "") || decide (p.round = none) ||
          decide (p.pick = none) || decide (p.keeper_overall = none)) then
        bad_request "Each player needs: player (name), meta.round, meta.pick, keeper_overall."
      else
        .engineCall teams keepers_allowed your_slot qb_slots players

/-- C9 counterexample: a league whose `your_slot` is the non-integer JSON
number `1.5` (`floatval 1`, truncated by `int(...)` to `1`).  The claim calls
this "a numeric field that is not an integer" and demands a 400; the handler
instead coerces it by truncation, passes validation, and proceeds to the
valuation engine. -/
theorem noninteger_numeric_reaches_engine :
    lambda_handler_route true true
        ⟨.intval 12, true, .intval 1, .floatval 1, .intval 2⟩
        [⟨"Player A", some 2, some 3, some 15, "KC"⟩]
      = .engineCall 12 2 1 1 [⟨"Player A", some 2, some 3, some 15, "KC"⟩] := by
  decide

/-- The amended notion of an invalid league configuration: a required key
missing, a numeric field on which `int(...)` raises, or an out-of-range
coerced value (`teams ≤ 0`, `your_slot` outside `[1, teams]`, negative
`keepers_allowed`).  A present non-integer numeric is *not* invalid: `int()`
truncates it and the handler accepts the result. -/
def invalidLeagueConfig (league : LeagueIn) : Prop :=
  league.teams = .missing ∨ league.format_present = false ∨
    league.qb_slots = .missing ∨ league.your_slot = .missing ∨
    league.keepers_allowed = .missing ∨
    league.teams = .malformed ∨ league.qb_slots = .malformed ∨
    league.your_slot = .malformed ∨ league.keepers_allowed = .malformed ∨
    (∃ t ka ys : ℤ, league.teams.toInt? = some t ∧
      league.keepers_allowed.toInt? = some ka ∧ league.your_slot.toInt? = some ys ∧
      (t ≤ 0 ∨ ys < 1 ∨ ys > t ∨ ka < 0))

theorem coerceLeague_some {league : LeagueIn} {t ka ys qs : ℤ}
    (hc : coerceLeague league = some (t, ka, ys, qs)) :
    league.teams.toInt? = some t ∧ league.keepers_allowed.toInt? = some ka ∧
      league.your_slot.toInt? = some ys ∧ league.qb_slots.toInt? = some qs := by
  unfold coerceLeague at hc
  rcases h1 : league.teams.toInt? with _ | t' <;> rw [h1] at hc
  · exact Option.noConfusion hc
  rcases h2 : league.keepers_allowed.toInt? with _ | ka' <;> rw [h2] at hc
  · exact Option.noConfusion hc
  rcases h3 : league.your_slot.toInt? with _ | ys' <;> rw [h3] at hc
  · exact Option.noConfusion hc
  rcases h4 : league.qb_slots.toInt? with _ | qs' <;> rw [h4] at hc
  · exact Option.noConfusion hc
  simp only [Option.some.injEq, Prod.mk.injEq] at hc
  obtain ⟨e1, e2, e3, e4⟩ := hc
  subst e1
  subst e2
  subst e3
  subst e4
  exact ⟨rfl, rfl, rfl, rfl⟩

/-- C9 (amended): a request whose league configuration is invalid — a required
key missing, a numeric field on which integer coercion raises, or an
out-of-range coerced value — is answered with a client error
(`statusCode 400`) and never reaches the valuation engine.  (The original
claim's "numeric field that is not an integer" class is not rejected by the
code: `int()` truncates such values, see `noninteger_numeric_reaches_engine`.) -/
theorem invalid_league_rejected (league : LeagueIn) (players : List PlayerIn)
    (hinv : invalidLeagueConfig league) :
    ∃ msg, lambda_handler_route true true league players = .clientError 400 msg := by
  unfold lambda_handler_route bad_request
  rw [if_neg (by simp), if_neg (by simp)]
  by_cases h1 : league.teams.present = false
  · exact ⟨_, by rw [if_pos h1]⟩
  rw [if_neg h1]
  by_cases h2 : league.format_present = false
  · exact ⟨_, by rw [if_pos h2]⟩
  rw [if_neg h2]
  by_cases h3 : league.qb_slots.present = false
  · exact ⟨_, by rw [if_pos h3]⟩
  rw [if_neg h3]
  by_cases h4 : league.your_slot.present = false
  · exact ⟨_, by rw [if_pos h4]⟩
  rw [if_neg h4]
  by_cases h5 : league.keepers_allowed.present = false
  · exact ⟨_, by rw [if_pos h5]⟩
  rw [if_neg h5]
  cases hc : coerceLeague league with
  | none => exact ⟨_, rfl⟩
  | some tup =>
    obtain ⟨t, ka, ys, qs⟩ := tup
    obtain ⟨he1, he2, he3, he4⟩ := coerceLeague_some hc
    have hrange : t ≤ 0 ∨ ka < 0 ∨ ys ≤ 0 ∨ ys > t := by
      rcases hinv with h | h | h | h | h | h | h | h | h | ⟨t', ka', ys', ht', hka', hys', hr⟩
      · rw [h] at he1; simp [NumField.toInt?] at he1
      · exact absurd h h2
      · rw [h] at he4; simp [NumField.toInt?] at he4
      · rw [h] at he3; simp [NumField.toInt?] at he3
      · rw [h] at he2; simp [NumField.toInt?] at he2
      · rw [h] at he1; simp [NumField.toInt?] at he1
      · rw [h] at he4; simp [NumField.toInt?] at he4
      · rw [h] at he3; simp [NumField.toInt?] at he3
      · rw [h] at he2; simp [NumField.toInt?] at he2
      · rw [he1] at ht'; rw [he2] at hka'; rw [he3] at hys'
        simp only [Option.some.injEq] at ht' hka' hys'
        omega
    refine ⟨"Invalid league values (teams > 0, 0<=keepers_allowed, 1<=your_slot<=teams).", ?_⟩
    simp only [if_pos hrange]

theorem invalid_league_rejected_witness :
    ∃ msg, lambda_handler_route true true
        ⟨.intval 12, true, .intval 1, .intval 13, .intval 2⟩
        [⟨"Player A", some 2, some 3, some 15, "KC"⟩] = .clientError 400 msg :=
  invalid_league_rejected ⟨.intval 12, true, .intval 1, .intval 13, .intval 2⟩
    [⟨"Player A", some 2, some 3, some 15, "KC"⟩]
    (Or.inr (Or.inr (Or.inr (Or.inr (Or.inr (Or.inr (Or.inr (Or.inr (Or.inr
      ⟨12, 2, 13, rfl, rfl, rfl, by omega⟩)))))))))

end KeeperApp
